import Mathlib

/-!
Verification of the abstractplay games library core against its specification.

The development shallowly embeds the TypeScript sources:
  * `src/unnamed/part_000` — common utilities (`x2uid`)
  * `src/unnamed/part_001` — serialization (`replacer`/`reviver`) and `StigmergyGame`
  * `src/unnamed/part_002` — `ChaseGame` (static coordinate converters)
  * `src/src/games/ceph.ts` — `CephalopodGame`
  * `src/src/games/amazons.ts` — `AmazonsGame`
JavaScript `Map`s become insertion-ordered association lists, fallible code
returns `Except String`, numbers are `Int`/`Nat`/`Rat` (with an explicit
`Option` layer where JavaScript `NaN` can arise), and `undefined`-able fields
are `Option`s.  Board-graph classes (`HexTriGraph`, `SquareOrthGraph`,
`RectGrid`, the `GameBase` coordinate helpers) are not part of the provided
sources; they are modelled from the specification as explicit parameters or
small definitions, each marked `Modelled from the spec:`.
-/

/-- Decidable equality for `Except`, used to evaluate concrete runs. -/
instance {ε α : Type} [DecidableEq ε] [DecidableEq α] : DecidableEq (Except ε α) := fun x y =>
  match x, y with
  | .ok a, .ok b =>
    if h : a = b then isTrue (by rw [h]) else isFalse (by simp [Except.ok.injEq, h])
  | .ok _, .error _ => isFalse (by simp)
  | .error _, .ok _ => isFalse (by simp)
  | .error e, .error f =>
    if h : e = f then isTrue (by rw [h]) else isFalse (by simp [Except.error.injEq, h])

namespace JsUtil

/-- ASCII lower-casing of one character, the effect of JavaScript
`String.prototype.toLowerCase` on the ASCII inputs the games use. -/
def jsLowerChar (c : Char) : Char :=
  if 65 ≤ c.toNat ∧ c.toNat ≤ 90 then Char.ofNat (c.toNat + 32) else c

/-- Whitespace test backing the `replace(/\s+/g, "")` normalization. -/
def isJsWs (c : Char) : Bool :=
  c = ' ' ∨ c = '\t' ∨ c = '\n' ∨ c = '\r'

/-- The move-input normalization every game applies:
`m.toLowerCase()` followed by `m.replace(/\s+/g, "")`. -/
def jsNormalize (s : String) : String :=
  String.mk ((s.data.map jsLowerChar).filter (fun c => !(isJsWs c)))

/-- Value of a list of decimal digits. -/
def digitsToNat (l : List Char) : Nat :=
  l.foldl (fun a c => a * 10 + (c.toNat - 48)) 0

/-- JavaScript `parseInt(s, 10)`: skip leading whitespace, take an optional
sign, then read a leading run of decimal digits; `none` models `NaN`
(no digit found).  Trailing junk is ignored, exactly as in JavaScript. -/
def parseIntJS (s : String) : Option Int :=
  let l := s.data.dropWhile (fun c => isJsWs c)
  let sl : Int × List Char :=
    match l with
    | '-' :: t => (-1, t)
    | '+' :: t => (1, t)
    | _ => (1, l)
  let digits := sl.2.takeWhile Char.isDigit
  if digits.isEmpty then none
  else some (sl.1 * (digitsToNat digits : Int))

/-- JavaScript `%` on integers truncates toward zero (sign of the dividend). -/
def jsRem (a b : Int) : Int := Int.tmod a b

/-- JavaScript `Map.prototype.get`: first (unique) binding of the key. -/
def mget {α : Type} (l : List (String × α)) (k : String) : Option α :=
  (l.find? (fun e => e.1 == k)).map Prod.snd

/-- JavaScript `Map.prototype.has`. -/
def mhas {α : Type} (l : List (String × α)) (k : String) : Bool :=
  l.any (fun e => e.1 == k)

/-- JavaScript `Map.prototype.set`: replace the binding in place if the key
exists, otherwise append (Maps iterate in insertion order). -/
def mset {α : Type} (l : List (String × α)) (k : String) (v : α) : List (String × α) :=
  if mhas l k then l.map (fun e => if e.1 == k then (k, v) else e) else l ++ [(k, v)]

/-- JavaScript `Map.prototype.delete`. -/
def mdel {α : Type} (l : List (String × α)) (k : String) : List (String × α) :=
  l.filter (fun e => !(e.1 == k))

/-- JavaScript `Map.prototype.size`. -/
def msize {α : Type} (l : List (String × α)) : Nat := l.length

/-- `[...map.values()]` in iteration (insertion) order. -/
def mvalues {α : Type} (l : List (String × α)) : List α := l.map Prod.snd

end JsUtil

/-! ## Chase coordinate converters (`src/unnamed/part_002`, lines 88–104) -/

namespace Chase

open JsUtil

/-- `const columnLabels = "abcdefghijklmnopqrstuvwxyz".split("")`. -/
def columnLabels : List Char := "abcdefghijklmnopqrstuvwxyz".data

/-- `ChaseGame.coords2algebraic(x, y) = columnLabels[9 - y - 1] + (x + 1)`.
Defined for the on-board range `y ≤ 8` (beyond it the JavaScript indexes the
label array out of range and produces an `"undefined…"` string; the claims
only quantify over the 9×9 board). -/
def coords2algebraic (x y : Nat) : String :=
  String.mk [columnLabels.getD (9 - y - 1) 'a'] ++ toString (x + 1)

/-- `ChaseGame.algebraic2coords(cell)`: first character looked up in the
26-letter label list (JavaScript `indexOf`, −1 → throw), remainder fed to
`parseInt(·, 10)` (`NaN` → throw), result `[x - 1, 9 - y - 1]`.
No bounds check is performed on the resulting pair. -/
def algebraic2coords (cell : String) : Except String (Int × Int) :=
  match cell.data with
  | [] => .error "The column label is invalid"
  | c0 :: rest =>
    match columnLabels.findIdx? (· = c0) with
    | none => .error "The column label is invalid"
    | some y =>
      match parseIntJS (String.mk rest) with
      | none => .error "The row label is invalid"
      | some x => .ok (x - 1, 9 - (y : Int) - 1)

/-- Exhaustive check of the coordinate→label→coordinate round trip. -/
theorem a2c_c2a_aux : ∀ x y : Nat, x ≤ 8 → y ≤ 8 →
    algebraic2coords (coords2algebraic x y) = .ok ((x : Int), (y : Int)) := by
  intro x y hx hy
  interval_cases x <;> interval_cases y <;> decide

/-- C4: on the Chase 9×9 board, `algebraic2coords` inverts `coords2algebraic`
on every in-bounds coordinate pair, and `coords2algebraic` inverts
`algebraic2coords` on every valid cell label (a label produced by
`coords2algebraic` from an in-bounds pair). -/
theorem coords_roundtrip :
    (∀ x y : Nat, x ≤ 8 → y ≤ 8 →
      algebraic2coords (coords2algebraic x y) = .ok ((x : Int), (y : Int)))
    ∧ (∀ (c : String) (x y : Nat), x ≤ 8 → y ≤ 8 → c = coords2algebraic x y →
      (algebraic2coords c).map (fun p => coords2algebraic p.1.toNat p.2.toNat) = .ok c) := by
  refine ⟨a2c_c2a_aux, ?_⟩
  intro c x y hx hy hc
  subst hc
  rw [a2c_c2a_aux x y hx hy]
  rfl

/-- C4 witness: the round trips evaluated at the concrete cell `e4` = (3,4). -/
theorem coords_roundtrip_witness :
    algebraic2coords (coords2algebraic 3 4) = .ok (3, 4)
    ∧ (algebraic2coords "e4").map (fun p => coords2algebraic p.1.toNat p.2.toNat)
        = .ok "e4" := by
  refine ⟨coords_roundtrip.1 3 4 (by decide) (by decide), ?_⟩
  exact coords_roundtrip.2 "e4" 3 4 (by decide) (by decide) (by decide)

/-- C5 counterexample: the label `a0` resolves to the out-of-bounds coordinate
pair (−1, 8), yet `algebraic2coords` returns it instead of raising — there is
no bounds check on the computed pair. -/
theorem a2c_no_bounds_check : algebraic2coords "a0" = .ok (-1, 8) := by decide

/-- C5 amended: `algebraic2coords` raises exactly when the label is empty, its
first character is not one of the 26 lowercase letters, or the remainder has
no leading integer in the `parseInt` sense; a label that resolves outside the
declared 9×9 bounds is returned as an out-of-range pair, not rejected. -/
theorem a2c_error_charac : ∀ c : String, (algebraic2coords c).isOk = true ↔
    (∃ c0 rest, c.data = c0 :: rest ∧ c0 ∈ columnLabels
      ∧ (parseIntJS (String.mk rest)).isSome = true) := by
  intro c
  cases hc : c.data with
  | nil =>
    simp only [algebraic2coords, hc]
    constructor
    · intro h; exact absurd h (by decide)
    · rintro ⟨c0', rest', heq, -, -⟩; cases heq
  | cons c0 rest =>
    simp only [algebraic2coords, hc]
    cases hf : columnLabels.findIdx? (· = c0) with
    | none =>
      have hmem : c0 ∉ columnLabels := by
        intro hm
        have h2 := (List.findIdx?_eq_none_iff.mp hf) c0 hm
        simp at h2
      constructor
      · intro h; exact Bool.noConfusion h
      · rintro ⟨c0', rest', heq, hm, -⟩
        injection heq with h1 h2
        subst h1
        exact absurd hm hmem
    | some y =>
      have hmem : c0 ∈ columnLabels := by
        by_contra hm
        have hnone : columnLabels.findIdx? (· = c0) = none :=
          List.findIdx?_eq_none_iff.mpr (fun x hx => by
            simp only [decide_eq_false_iff_not]
            intro hxc; exact hm (hxc ▸ hx))
        rw [hnone] at hf; cases hf
      cases hp : parseIntJS (String.mk rest) with
      | none =>
        constructor
        · intro h; exact Bool.noConfusion h
        · rintro ⟨c0', rest', heq, -, hp'⟩
          injection heq with h1 h2
          subst h2
          rw [hp] at hp'; cases hp'
      | some x =>
        constructor
        · intro _; exact ⟨c0, rest, rfl, hmem, by rw [hp]; rfl⟩
        · intro _; rfl

end Chase

/-! ## Deterministic serialization: `replacer` / `reviver`
(`src/unnamed/part_001`, lines 4–29)

`JSON.stringify(x, replacer)` applies `replacer` to every nested value before
text encoding, and `JSON.parse(s, reviver)` applies `reviver` bottom-up after
parsing; composing the two text phases is the identity on JSON trees, so the
pair is embedded as the tree transformations `encode` (replacer, applied
recursively) and `decode` (reviver, applied bottom-up). -/

namespace Ser


inductive JValue : Type where
  | jnull : JValue
  | jbool : Bool → JValue
  | jnum : Int → JValue
  | jstr : String → JValue
  | jarr : List JValue → JValue
  | jobj : List (String × JValue) → JValue

inductive Value : Type where
  | vnull : Value
  | vbool : Bool → Value
  | vnum : Int → Value
  | vstr : String → Value
  | varr : List Value → Value
  | vobj : List (String × Value) → Value
  | vmap : List (Value × Value) → Value
  | vset : List Value → Value

mutual
def encode : Value → JValue
  | .vnull => .jnull
  | .vbool b => .jbool b
  | .vnum n => .jnum n
  | .vstr s => .jstr s
  | .varr l => .jarr (encodeList l)
  | .vobj l => .jobj (encodeObj l)
  | .vmap l => .jobj [("dataType", .jstr "Map"), ("value", .jarr (encodePairs l))]
  | .vset l => .jobj [("dataType", .jstr "Set"), ("value", .jarr (encodeList l))]

def encodeList : List Value → List JValue
  | [] => []
  | v :: t => encode v :: encodeList t

def encodeObj : List (String × Value) → List (String × JValue)
  | [] => []
  | (k, v) :: t => (k, encode v) :: encodeObj t

def encodePairs : List (Value × Value) → List JValue
  | [] => []
  | (a, b) :: t => .jarr [encode a, encode b] :: encodePairs t
end

def lookupFirst (k : String) (l : List (String × Value)) : Option Value :=
  (l.find? (fun e => e.1 == k)).map Prod.snd

def mapEntryOf : Value → Option (Value × Value)
  | .varr (a :: b :: _) => some (a, b)
  | .varr [a] => some (a, .vnull)
  | _ => none

mutual
def decode : JValue → Value
  | .jnull => .vnull
  | .jbool b => .vbool b
  | .jnum n => .vnum n
  | .jstr s => .vstr s
  | .jarr l => .varr (decodeList l)
  | .jobj l =>
    match lookupFirst "dataType" (decodeObj l) with
    | some (.vstr "Map") =>
      .vmap (match lookupFirst "value" (decodeObj l) with
             | some (.varr es) => es.filterMap mapEntryOf
             | _ => [])
    | some (.vstr "Set") =>
      .vset (match lookupFirst "value" (decodeObj l) with
             | some (.varr es) => es
             | _ => [])
    | _ => .vobj (decodeObj l)

def decodeList : List JValue → List Value
  | [] => []
  | v :: t => decode v :: decodeList t

def decodeObj : List (String × JValue) → List (String × Value)
  | [] => []
  | (k, v) :: t => (k, decode v) :: decodeObj t
end

def isTagged (l : List (String × Value)) : Bool :=
  match lookupFirst "dataType" l with
  | some (.vstr t) => t == "Map" || t == "Set"
  | _ => false

def nodupKeysB {α : Type} : List (String × α) → Bool
  | [] => true
  | (k, _) :: t => !(t.any (·.1 == k)) && nodupKeysB t

mutual
def goodB : Value → Bool
  | .vnull => true
  | .vbool _ => true
  | .vnum _ => true
  | .vstr _ => true
  | .varr l => goodListB l
  | .vobj l => !(isTagged l) && nodupKeysB l && goodObjB l
  | .vmap l => goodPairsB l
  | .vset l => goodListB l

def goodListB : List Value → Bool
  | [] => true
  | v :: t => goodB v && goodListB t

def goodObjB : List (String × Value) → Bool
  | [] => true
  | (_, v) :: t => goodB v && goodObjB t

def goodPairsB : List (Value × Value) → Bool
  | [] => true
  | (a, b) :: t => goodB a && goodB b && goodPairsB t
end

mutual
theorem decode_encode : ∀ x : Value, goodB x = true → decode (encode x) = x
  | .vnull, _ => rfl
  | .vbool _, _ => rfl
  | .vnum _, _ => rfl
  | .vstr _, _ => rfl
  | .varr l, h => by
    have hl := decodeList_encodeList l (by simpa [goodB] using h)
    simp [encode, decode, hl]
  | .vobj l, h => by
    have h' : isTagged l = false ∧ goodObjB l = true := by
      have := h
      simp [goodB, Bool.and_eq_true] at this
      exact ⟨this.1.1, this.2⟩
    have hl := decodeObj_encodeObj l h'.2
    simp only [encode, decode, hl]
    split
    next heq => simp [isTagged, heq] at h'
    next heq => simp [isTagged, heq] at h'
    next => rfl
  | .vmap l, h => by
    have hl := decodePairs_encodePairs l (by simpa [goodB] using h)
    simp only [encode, decode, decodeObj, lookupFirst, List.find?]
    simp [hl]
  | .vset l, h => by
    have hl := decodeList_encodeList l (by simpa [goodB] using h)
    simp only [encode, decode, decodeObj, lookupFirst, List.find?]
    simp [hl]

theorem decodeList_encodeList : ∀ l : List Value, goodListB l = true →
    decodeList (encodeList l) = l
  | [], _ => rfl
  | v :: t, h => by
    have h' := (by simpa [goodListB, Bool.and_eq_true] using h : goodB v = true ∧ goodListB t = true)
    simp [encodeList, decodeList, decode_encode v h'.1, decodeList_encodeList t h'.2]

theorem decodeObj_encodeObj : ∀ l : List (String × Value), goodObjB l = true →
    decodeObj (encodeObj l) = l
  | [], _ => rfl
  | (k, v) :: t, h => by
    have h' := (by simpa [goodObjB, Bool.and_eq_true] using h : goodB v = true ∧ goodObjB t = true)
    simp [encodeObj, decodeObj, decode_encode v h'.1, decodeObj_encodeObj t h'.2]

theorem decodePairs_encodePairs : ∀ l : List (Value × Value), goodPairsB l = true →
    (decodeList (encodePairs l)).filterMap mapEntryOf = l
  | [], _ => rfl
  | (a, b) :: t, h => by
    have h' := (by simpa [goodPairsB, Bool.and_eq_true] using h :
      (goodB a = true ∧ goodB b = true) ∧ goodPairsB t = true)
    simp [encodePairs, decodeList, decode, decodeList, List.filterMap, mapEntryOf,
      decode_encode a h'.1.1, decode_encode b h'.1.2, decodePairs_encodePairs t h'.2]
end


/-- The plain object `\x7bdataType: "Map", value: []\x7d`: built only from
objects, strings and arrays, yet the reviver mistakes it for an encoded Map. -/
def taggedDecoy : Value := .vobj [("dataType", .vstr "Map"), ("value", .varr [])]

/-- C3 counterexample: decoding the encoding of the plain object
`\x7bdataType: "Map", value: []\x7d` yields an empty `Map`, not the original
object, so the round-trip law fails on this value built only from objects,
strings and arrays. -/
theorem roundtrip_fails_on_decoy : decode (encode taggedDecoy) ≠ taggedDecoy := by
  intro h
  rw [show decode (encode taggedDecoy) = Value.vmap [] from rfl] at h
  exact Value.noConfusion h

/-- C3 amended: for every value built from maps, sets, arrays, objects and
primitives in which every plain object has pairwise-distinct keys and none
carries a `dataType` field equal to `"Map"` or `"Set"`, parsing the JSON
encoding produced with the replacer using the reviver yields the value back
(Maps and Sets reconstructed with the same entries). -/
theorem serialization_roundtrip (x : Value) (hx : goodB x = true) :
    decode (encode x) = x :=
  decode_encode x hx

/-- C3 witness: the round trip evaluated on a concrete nested value holding a
Map, a Set, an array and primitives. -/
theorem serialization_roundtrip_witness :
    decode (encode (Value.vobj [("m", .vmap [(.vstr "k", .vnum 1)]),
        ("s", .vset [.vnum 2, .vbool true]), ("a", .varr [.vnull, .vstr "z"])]))
      = Value.vobj [("m", .vmap [(.vstr "k", .vnum 1)]),
        ("s", .vset [.vnum 2, .vbool true]), ("a", .varr [.vnull, .vstr "z"])] :=
  serialization_roundtrip _ (by rfl)

end Ser

/-! ## Content addressing: `x2uid` (`src/unnamed/part_000`, lines 44–48)

`x2uid(x) = fnv.hash(stringify(x)).hex()` with `fnv.seed("apgames")`.
The two libraries it delegates to are external dependencies, so they are
modelled from the spec: `stringifyDet` — Modelled from the spec: the
`json-stringify-deterministic` canonical text encoding, which sorts object
keys before rendering (string escaping is not modelled; it plays no role in
key-order invariance); `fnvFold`/`fnvSeedBasis` — Modelled from the spec: a
fixed-seed 32-bit FNV-family hash over the canonical text, rendered as hex. -/

namespace Hash


open Ser

def jquote (s : String) : String := "\"" ++ s ++ "\""

def keyLE (a b : String × String) : Prop := a.1 ≤ b.1

instance : DecidableRel keyLE := fun a b => inferInstanceAs (Decidable (a.1 ≤ b.1))

instance : IsTotal (String × String) keyLE := ⟨fun a b => le_total a.1 b.1⟩

instance : IsTrans (String × String) keyLE := ⟨fun _ _ _ h₁ h₂ => le_trans h₁ h₂⟩

def keyLT (a b : String × String) : Prop := a.1 < b.1

instance : IsAntisymm (String × String) keyLT :=
  ⟨fun _ _ h₁ h₂ => absurd (lt_trans h₁ h₂) (lt_irrefl _)⟩

def sortEntries (l : List (String × String)) : List (String × String) :=
  List.insertionSort keyLE l

theorem sortEntries_sortedLT {m : List (String × String)}
    (hn : (m.map Prod.fst).Nodup) : List.Sorted keyLT (sortEntries m) := by
  have h₁ : List.Sorted keyLE (sortEntries m) := List.sorted_insertionSort keyLE m
  have hperm : (sortEntries m).Perm m := List.perm_insertionSort keyLE m
  have h₂ : ((sortEntries m).map Prod.fst).Nodup :=
    ((hperm.map Prod.fst).nodup_iff).mpr hn
  have h₃ : (sortEntries m).Pairwise (fun a b => a.1 ≠ b.1) :=
    List.pairwise_map.mp h₂
  exact (h₁.and h₃).imp (fun h => lt_of_le_of_ne h.1 h.2)

theorem sortEntries_congr {l l' : List (String × String)} (hp : l.Perm l')
    (hn : (l.map Prod.fst).Nodup) : sortEntries l = sortEntries l' := by
  have hn' : (l'.map Prod.fst).Nodup := ((hp.map Prod.fst).nodup_iff).mp hn
  have hp₁ : (sortEntries l).Perm (sortEntries l') :=
    ((List.perm_insertionSort keyLE l).trans hp).trans
      (List.perm_insertionSort keyLE l').symm
  exact List.eq_of_perm_of_sorted hp₁ (sortEntries_sortedLT hn) (sortEntries_sortedLT hn')

mutual
def stringifyDet : JValue → String
  | .jnull => "null"
  | .jbool b => cond b "true" "false"
  | .jnum n => toString n
  | .jstr s => jquote s
  | .jarr l => "[" ++ String.intercalate "," (strList l) ++ "]"
  | .jobj l => "\x7b" ++ String.intercalate ","
      ((sortEntries (strEntries l)).map (fun q => jquote q.1 ++ ":" ++ q.2)) ++ "\x7d"

def strList : List JValue → List String
  | [] => []
  | v :: t => stringifyDet v :: strList t

def strEntries : List (String × JValue) → List (String × String)
  | [] => []
  | (k, v) :: t => (k, stringifyDet v) :: strEntries t
end

theorem strEntries_eq_map (l : List (String × JValue)) :
    strEntries l = l.map (fun p => (p.1, stringifyDet p.2)) := by
  induction l with
  | nil => rfl
  | cons p t ih => cases p; simp [strEntries, ih]

theorem strEntries_keys (l : List (String × JValue)) :
    (strEntries l).map Prod.fst = l.map Prod.fst := by
  rw [strEntries_eq_map, List.map_map]; rfl

def fnvPrime : Nat := 16777619

def fnvFold (h : Nat) (l : List Char) : Nat :=
  l.foldl (fun a c => ((a ^^^ (c.toNat % 256)) * fnvPrime) % 2 ^ 32) h

def fnvSeedBasis : Nat := fnvFold 2166136261 "apgames".data

def natToHex (n : Nat) : String := (Nat.toDigits 16 n).asString

def x2uid (x : JValue) : String := natToHex (fnvFold fnvSeedBasis (stringifyDet x).data)

mutual
inductive KeyPermEq : JValue → JValue → Prop where
  | jnull : KeyPermEq .jnull .jnull
  | jbool (b : Bool) : KeyPermEq (.jbool b) (.jbool b)
  | jnum (n : Int) : KeyPermEq (.jnum n) (.jnum n)
  | jstr (s : String) : KeyPermEq (.jstr s) (.jstr s)
  | jarr {l₁ l₂ : List JValue} : KeyPermList l₁ l₂ → KeyPermEq (.jarr l₁) (.jarr l₂)
  | jobj {l₁ l₂' l₂ : List (String × JValue)} : (l₁.map Prod.fst).Nodup →
      KeyPermEntries l₁ l₂' → l₂'.Perm l₂ → KeyPermEq (.jobj l₁) (.jobj l₂)

inductive KeyPermList : List JValue → List JValue → Prop where
  | nil : KeyPermList [] []
  | cons {a b : JValue} {t₁ t₂ : List JValue} : KeyPermEq a b → KeyPermList t₁ t₂ →
      KeyPermList (a :: t₁) (b :: t₂)

inductive KeyPermEntries : List (String × JValue) → List (String × JValue) → Prop where
  | nil : KeyPermEntries [] []
  | cons {k : String} {v₁ v₂ : JValue} {t₁ t₂ : List (String × JValue)} :
      KeyPermEq v₁ v₂ → KeyPermEntries t₁ t₂ →
      KeyPermEntries ((k, v₁) :: t₁) ((k, v₂) :: t₂)
end

mutual
theorem stringify_keyPerm : ∀ {x y : JValue}, KeyPermEq x y →
    stringifyDet x = stringifyDet y
  | _, _, .jnull => rfl
  | _, _, .jbool _ => rfl
  | _, _, .jnum _ => rfl
  | _, _, .jstr _ => rfl
  | _, _, .jarr h => by
    simp only [stringifyDet]
    rw [strList_keyPerm h]
  | _, _, @KeyPermEq.jobj l₁ l₂' l₂ hk he hp => by
    simp only [stringifyDet]
    have h₁ : strEntries l₁ = strEntries l₂' := strEntries_keyPerm he
    have hperm : (strEntries l₂').Perm (strEntries l₂) := by
      rw [strEntries_eq_map, strEntries_eq_map]
      exact hp.map (fun p => (p.1, stringifyDet p.2))
    have hkeys : ((strEntries l₁).map Prod.fst).Nodup := by
      rw [strEntries_keys]; exact hk
    have hs : sortEntries (strEntries l₁) = sortEntries (strEntries l₂) := by
      rw [h₁]
      exact sortEntries_congr hperm (h₁ ▸ hkeys)
    rw [hs]

theorem strList_keyPerm : ∀ {l₁ l₂ : List JValue}, KeyPermList l₁ l₂ →
    strList l₁ = strList l₂
  | _, _, .nil => rfl
  | _, _, .cons h t => by
    simp only [strList]
    rw [stringify_keyPerm h, strList_keyPerm t]

theorem strEntries_keyPerm : ∀ {l₁ l₂ : List (String × JValue)}, KeyPermEntries l₁ l₂ →
    strEntries l₁ = strEntries l₂
  | _, _, .nil => rfl
  | _, _, .cons h t => by
    simp only [strEntries]
    rw [stringify_keyPerm h, strEntries_keyPerm t]
end


/-- C8: values that are equal up to object key-insertion order receive the
identical `x2uid` hash, and the hash is the fixed-seed FNV-family hash of the
canonical (key-sorted) text encoding, rendered in hex. -/
theorem x2uid_key_order_invariant :
    (∀ x y : JValue, KeyPermEq x y → x2uid x = x2uid y)
    ∧ (∀ x : JValue, x2uid x = natToHex (fnvFold fnvSeedBasis (stringifyDet x).data)) := by
  constructor
  · intro x y h
    unfold x2uid
    rw [stringify_keyPerm h]
  · intro x
    rfl

/-- C8 witness: the same two-field object with its keys inserted in the two
possible orders hashes identically. -/
theorem x2uid_key_order_invariant_witness :
    x2uid (.jobj [("b", .jnum 1), ("a", .jnum 2)])
      = x2uid (.jobj [("a", .jnum 2), ("b", .jnum 1)]) :=
  x2uid_key_order_invariant.1 _ _
    (KeyPermEq.jobj (by decide)
      (KeyPermEntries.cons (.jnum 1) (KeyPermEntries.cons (.jnum 2) .nil))
      (List.Perm.swap (("a", JValue.jnum 2) : String × JValue) ("b", JValue.jnum 1) []))

end Hash

/-! ## Cephalopod (`src/src/games/ceph.ts`)

`numplayers` is the constant 2; `_version` tags are omitted from snapshots.
The board graph (`SquareOrthGraph`/`SnubSquareGraph`, built in `buildGraph`)
is not under `src/`; `Ceph.Graph` below is Modelled from the spec: the cell
enumeration (`listCells`) and per-cell neighbour lists the game queries.
The capture power set is enumerated with `List.sublists` and permutations
with `List.permutations`; the claims only depend on membership, not on the
enumeration order of the `js-combinatorics` iterators. -/

namespace Ceph

open JsUtil

/-- `APMoveResult` records produced by this game. -/
inductive MR : Type where
  | place (what : String) (cell : String)
  | capture (what : String) (cell : String)
  | eog
  | winners (players : List Nat)
  | resigned (player : Nat)
deriving DecidableEq, Repr

/-- `IMoveState`: one snapshot. -/
structure Snap : Type where
  currplayer : Nat
  board : List (String × Nat × Nat)
  lastmove : Option String
  results : List MR
deriving DecidableEq, Repr

/-- The mutable fields of `CephalopodGame` (the graph is held separately). -/
structure State : Type where
  currplayer : Nat
  board : List (String × Nat × Nat)
  lastmove : Option String
  gameover : Bool
  winner : List Nat
  stack : List Snap
  results : List MR
deriving DecidableEq, Repr

/-- Modelled from the spec: the board topology instance, reduced to the two
queries this game performs (`listCells()` and `neighbours(cell)`). -/
structure Graph : Type where
  cells : List String
  neighbours : String → List String

def joinPlus (l : List String) : String := String.intercalate "+" l

/-- All sublists of `l`, each keeping the order of `l`: the subsets produced
by the `js-combinatorics` `PowerSet` iterator.  Defined by plain structural
recursion so concrete runs reduce in the kernel; the claims depend only on
membership, not on the iterator order. -/
def sublistsOf {α : Type} : List α → List (List α)
  | [] => [[]]
  | a :: t => sublistsOf t ++ (sublistsOf t).map (a :: ·)

/-- `l` with `a` inserted at every position. -/
def insertEverywhere {α : Type} (a : α) : List α → List (List α)
  | [] => [[a]]
  | b :: t => (a :: b :: t) :: (insertEverywhere a t).map (b :: ·)

/-- All permutations of `l`: the orderings produced by the
`js-combinatorics` `Permutation` iterator.  Structural recursion again; only
membership matters to the claims. -/
def permsOf {α : Type} : List α → List (List α)
  | [] => [[]]
  | a :: t => (permsOf t).flatMap (insertEverywhere a)

/-- `CephalopodGame.moves(player?, permissive)`: per empty cell, every subset
of occupied neighbours of size ≥ 2 summing to ≤ 6 yields a capture move
(all orderings of the captured cells when `permissive`); a cell with no
capture yields a bare placement.  The `player` argument is unused in the
source body and kept only for signature fidelity. -/
def moves (g : Graph) (s : State) (_player : Nat) (permissive : Bool) : List String :=
  if s.gameover then [] else
  g.cells.flatMap (fun cell =>
    if mhas s.board cell then [] else
    let nCells := g.neighbours cell
    let neighbourEntries :=
      (s.board.filter (fun e => nCells.contains e.1)).map (fun e => (e.1, e.2.2))
    let captures := (sublistsOf neighbourEntries).flatMap (fun st =>
      if st.length > 1 then
        let sum := (st.map Prod.snd).foldl (· + ·) 0
        if sum ≤ 6 then
          if permissive then
            (permsOf (st.map Prod.fst)).map (fun p => cell ++ "=" ++ joinPlus p)
          else [cell ++ "=" ++ joinPlus (st.map Prod.fst)]
        else []
      else [])
    if captures.length > 0 then captures else [cell])

/-- `getPlayerScore`: `[...board.values()].filter(v => v[0] === player).length`. -/
def getPlayerScore (s : State) (player : Nat) : Nat :=
  ((mvalues s.board).filter (fun v => v.1 == player)).length

/-- `checkEOG`: when the board is full, set game over and compare scores
strictly; equal scores throw (source text: "Draws shouldn\u0027t be possible.",
rendered here without the apostrophe). -/
def checkEOG (g : Graph) (s : State) : Except String State :=
  if msize s.board == g.cells.length then
    let s1 : State := {s with gameover := true}
    let score1 := getPlayerScore s1 1
    let score2 := getPlayerScore s1 2
    if score1 > score2 then
      .ok {s1 with winner := [1], results := s1.results ++ [.eog, .winners [1]]}
    else if score1 < score2 then
      .ok {s1 with winner := [2], results := s1.results ++ [.eog, .winners [2]]}
    else .error "Draws should not be possible."
  else .ok s

/-- `moveState()` (version tag omitted). -/
def moveState (s : State) : Snap :=
  { currplayer := s.currplayer, board := s.board,
    lastmove := s.lastmove, results := s.results }

/-- `CephalopodGame.move(m)`: terminal guard, normalization, membership test
against the permissive enumeration, application of the capture or placement,
player switch, then `checkEOG` and `saveState` (which pushes `moveState()`).
On the capture path the source reads `this.board.get(cap)![1]` for the
effect record; the `getD` default is unreachable for enumerated moves. -/
def move (g : Graph) (s : State) (m : String) : Except String State :=
  if s.gameover then .error "MOVES_GAMEOVER" else
  let m := jsNormalize m
  if !((moves g s s.currplayer true).contains m) then .error "MOVES_INVALID" else
  let s0 : State := {s with results := []}
  let applied : Except String State :=
    if m.contains '=' then
      let parts := m.split (fun c => c = '=')
      let cell := parts.getD 0 ""
      let rest := parts.getD 1 ""
      let caps := rest.split (fun c => c = '+')
      let sum := ((s0.board.filter (fun e => caps.contains e.1)).map
        (fun e => e.2.2)).foldl (· + ·) 0
      if sum > 6 then .error "Invalid capture. Sum greater than 6." else
      let s1 : State := { s0 with
        board := mset s0.board cell (s0.currplayer, sum),
        results := s0.results ++ [.place (toString sum) cell] }
      .ok (caps.foldl (fun st cap =>
        { st with
          results := st.results
            ++ [.capture (toString ((mget st.board cap).getD (0, 0)).2) cap],
          board := mdel st.board cap }) s1)
    else
      .ok { s0 with
        board := mset s0.board m (s0.currplayer, 1),
        results := s0.results ++ [.place "1" m] }
  match applied with
  | .error e => .error e
  | .ok s2 =>
    let s3 : State := { s2 with
      lastmove := some m,
      currplayer := if s.currplayer + 1 > 2 then 1 else s.currplayer + 1 }
    match checkEOG g s3 with
    | .error e => .error e
    | .ok s4 => .ok {s4 with stack := s4.stack ++ [moveState s4]}

/-- A two-cell topology: small enough that a filled board can tie. -/
def g2 : Graph := { cells := ["p", "q"], neighbours := fun _ => [] }

/-- Filled two-cell board where player 1 owns both dice. -/
def sGt : State :=
  { currplayer := 1, board := [("p", 1, 1), ("q", 1, 6)], lastmove := none,
    gameover := false, winner := [], stack := [], results := [] }

/-- Filled two-cell board with one die per player: equal scores. -/
def sEq : State :=
  { currplayer := 1, board := [("p", 1, 1), ("q", 2, 5)], lastmove := none,
    gameover := false, winner := [], stack := [], results := [] }

/-- C7: on a completely filled board `checkEOG` sets the game-over flag and
decides the winner by strict score comparison; equal scores on a filled board
raise the draws-impossible invariant violation instead of producing a tie. -/
theorem ceph_eog_strict_winner : ∀ (g : Graph) (s : State),
    msize s.board = g.cells.length →
    (getPlayerScore s 1 > getPlayerScore s 2 →
      checkEOG g s = .ok { s with
        gameover := true, winner := [1],
        results := s.results ++ [.eog, .winners [1]] })
    ∧ (getPlayerScore s 1 < getPlayerScore s 2 →
      checkEOG g s = .ok { s with
        gameover := true, winner := [2],
        results := s.results ++ [.eog, .winners [2]] })
    ∧ (getPlayerScore s 1 = getPlayerScore s 2 →
      checkEOG g s = .error "Draws should not be possible.") := by
  intro g s h
  have hb : (msize s.board == g.cells.length) = true := by simp [h]
  refine ⟨?_, ?_, ?_⟩
  · intro hgt
    simp only [checkEOG, hb, if_true]
    have h1 : getPlayerScore {s with gameover := true} 1 = getPlayerScore s 1 := rfl
    have h2 : getPlayerScore {s with gameover := true} 2 = getPlayerScore s 2 := rfl
    simp [h1, h2, hgt]
  · intro hlt
    simp only [checkEOG, hb, if_true]
    simp only [show getPlayerScore {s with gameover := true} 1 = getPlayerScore s 1 from rfl,
      show getPlayerScore {s with gameover := true} 2 = getPlayerScore s 2 from rfl]
    rw [if_neg (by omega), if_pos hlt]
  · intro heq
    simp only [checkEOG, hb, if_true]
    simp only [show getPlayerScore {s with gameover := true} 1 = getPlayerScore s 1 from rfl,
      show getPlayerScore {s with gameover := true} 2 = getPlayerScore s 2 from rfl]
    rw [if_neg (by omega), if_neg (by omega)]

/-- C7 witness: the winner branch and the invariant-violation branch both
exercised on concrete filled boards. -/
theorem ceph_eog_strict_winner_witness :
    checkEOG g2 sGt = .ok { sGt with
      gameover := true, winner := [1],
      results := sGt.results ++ [.eog, .winners [1]] }
    ∧ checkEOG g2 sEq = .error "Draws should not be possible." :=
  ⟨(ceph_eog_strict_winner g2 sGt (by decide)).1 (by decide),
   (ceph_eog_strict_winner g2 sEq (by decide)).2.2 (by decide)⟩

/-- Score as a `countP` over board entries, by induction on the board. -/
theorem ceph_countP_aux (b : List (String × Nat × Nat)) (p : Nat) :
    ((mvalues b).filter (fun v => v.1 == p)).length
      = b.countP (fun e => e.2.1 == p) := by
  induction b with
  | nil => rfl
  | cons e t ih =>
    simp only [mvalues, List.map_cons, List.filter_cons, List.countP_cons]
    simp only [mvalues] at ih
    by_cases hp : (e.2.1 == p) = true
    · simp [hp, ih]
    · simp [hp, ih]

/-- Reassigning pip values never changes the per-player entry count. -/
theorem ceph_remap_aux (b : List (String × Nat × Nat)) (p : Nat)
    (f : String → Nat → Nat → Nat) :
    ((mvalues (b.map (fun e => (e.1, e.2.1, f e.1 e.2.1 e.2.2)))).filter
        (fun v => v.1 == p)).length
      = ((mvalues b).filter (fun v => v.1 == p)).length := by
  induction b with
  | nil => rfl
  | cons e t ih =>
    simp only [mvalues, List.map_cons, List.filter_cons]
    simp only [mvalues, List.map_map] at ih
    by_cases hp : (e.2.1 == p) = true
    · simp [hp, ih]
    · simp [hp, ih]

/-- C9: `getPlayerScore p` counts the board cells holding a die of player `p`,
is invariant under arbitrary reassignment of pip values, and is the quantity
whose equality is the only way the end-of-game check can raise. -/
theorem ceph_score_counts_dice : ∀ (g : Graph) (s : State) (p : Nat),
    getPlayerScore s p = s.board.countP (fun e => e.2.1 == p)
    ∧ (∀ f : String → Nat → Nat → Nat,
        getPlayerScore
          { s with board := s.board.map (fun e => (e.1, e.2.1, f e.1 e.2.1 e.2.2)) } p
          = getPlayerScore s p)
    ∧ ((checkEOG g s).isOk = false → getPlayerScore s 1 = getPlayerScore s 2) := by
  intro g s p
  refine ⟨ceph_countP_aux s.board p, fun f => ceph_remap_aux s.board p f, ?_⟩
  intro h
  simp only [checkEOG] at h
  split at h
  next hfill =>
    split at h
    next => simp [Except.isOk, Except.toBool] at h
    next h1 =>
      split at h
      next => simp [Except.isOk, Except.toBool] at h
      next h2 =>
        have e1 : getPlayerScore {s with gameover := true} 1 = getPlayerScore s 1 := rfl
        have e2 : getPlayerScore {s with gameover := true} 2 = getPlayerScore s 2 := rfl
        rw [e1, e2] at h1 h2
        omega
  next => simp [Except.isOk, Except.toBool] at h

/-- C9 witness: the score of the concrete filled board, the pip-remap
invariance at a concrete remap, and the equal-score consequence of the
raising end-of-game check. -/
theorem ceph_score_counts_dice_witness :
    getPlayerScore sGt 1 = List.countP (fun e => e.2.1 == 1) sGt.board
    ∧ getPlayerScore
        { sEq with board := sEq.board.map (fun e => (e.1, e.2.1, e.2.2 + 1)) } 1
        = getPlayerScore sEq 1
    ∧ getPlayerScore sEq 1 = getPlayerScore sEq 2 :=
  ⟨(ceph_score_counts_dice g2 sGt 1).1,
   (ceph_score_counts_dice g2 sEq 1).2.1 (fun _ _ v => v + 1),
   (ceph_score_counts_dice g2 sEq 1).2.2 (by decide)⟩

end Ceph

/-! ## Stigmergy (`src/unnamed/part_001`, lines 31–736)

`numplayers` is the constant 2.  Snapshot `_version`/`_timestamp` tags are
omitted (the timestamp is wall-clock time, outside the embedding).  `komi` is
`Option (Option Int)`: the outer layer models `undefined`, the inner `none`
models the `NaN` produced by `parseInt` on non-numeric setup input.  Scores
are `Rat` because `getPlayerScore` adds the button holder 0.5; `Option Rat`
results propagate a `NaN` komi, and JavaScript comparisons against `NaN` are
false.  `HexTriGraph` is not under `src/`; `Stig.Graph` is Modelled from the
spec: ordered cell enumeration, neighbour lists, per-direction line-of-sight
rays (finite, boundary-terminated label sequences), and label validity (the
success of `algebraic2coords`, whose numeric result `validateMove` discards).
The validation guard of `move` (source lines 415–423) is factored into
`moveGuard` with identical semantics. -/

namespace Stig

open JsUtil

/-- `APMoveResult` records produced by this game. -/
inductive MR : Type where
  | komi (value : Option Int)
  | pass
  | button
  | place (cell : String)
  | capture (cell : String)
  | eog
  | winners (players : List Nat)
deriving DecidableEq, Repr

/-- `IMoveState`: one snapshot. -/
structure Snap : Type where
  currplayer : Nat
  board : List (String × Nat)
  lastmove : Option String
  results : List MR
  scores : Rat × Rat
  buttontaker : Option Nat
  komi : Option (Option Int)
deriving DecidableEq, Repr

instance : Inhabited Snap :=
  ⟨{ currplayer := 1, board := [], lastmove := none, results := [],
     scores := (0, 0), buttontaker := none, komi := none }⟩

/-- The mutable fields of `StigmergyGame` (the graph is held separately). -/
structure State : Type where
  currplayer : Nat
  board : List (String × Nat)
  lastmove : Option String
  gameover : Bool
  winner : List Nat
  stack : List Snap
  results : List MR
  scores : Rat × Rat
  buttontaker : Option Nat
  komi : Option (Option Int)
deriving DecidableEq, Repr

/-- Modelled from the spec: the `HexTriGraph` topology instance, reduced to
the queries Stigmergy performs. -/
structure Graph : Type where
  listCells : List String
  neighbours : String → List String
  rays : String → List (List String)
  validCell : String → Bool

/-- `getOtherPlayer` with `numplayers = 2`. -/
def getOtherPlayer (p : Nat) : Nat := if p + 1 > 2 then 1 else p + 1

/-- `isButtonActive`: `buttontaker === undefined && komi !== undefined &&
komi % 2 === 1` (a `NaN` komi fails the parity test). -/
def isButtonActive (s : State) : Bool :=
  s.buttontaker == none && !(s.komi == none)
    && (match s.komi with
        | some (some k) => jsRem k 2 == 1
        | _ => false)

/-- `getLosCount`: for each of the six rays from `cell`, find the first
occupied cell and count it when it belongs to `player`. -/
def getLosCount (g : Graph) (board : List (String × Nat)) (cell : String)
    (player : Nat) : Nat :=
  (g.rays cell).foldl (fun acc ray =>
    match ray.find? (fun c => mhas board c) with
    | some c => if mget board c == some player then acc + 1 else acc
    | none => acc) 0

/-- `Math.floor(neighbours(cell).length / 2) + 1`, the per-cell majority
threshold. -/
def losTarget (g : Graph) (cell : String) : Nat :=
  (g.neighbours cell).length / 2 + 1

/-- `StigmergyGame.moves(player?)`: empty before the komi is set, `["pass"]`
while the komi offer is pending, then captures/placements per cell plus the
button pseudo-move and conditional `pass`. -/
def moves (g : Graph) (s : State) (player : Nat) : List String :=
  if s.gameover then [] else
  let otherPlayer := getOtherPlayer player
  if s.stack.length == 1 then [] else
  if s.stack.length == 2 then ["pass"] else
  let res := g.listCells.foldl (fun (acc : List String × Bool) cell =>
    let t := losTarget g cell
    let playerLos := getLosCount g s.board cell player
    let otherLos := getLosCount g s.board cell otherPlayer
    let mv :=
      if mhas s.board cell && (mget s.board cell == some otherPlayer)
          && decide (playerLos ≥ t) then acc.1 ++ [cell]
      else if !(mhas s.board cell) && decide (otherLos < t) then acc.1 ++ [cell]
      else acc.1
    let free :=
      if !acc.2 && !(mhas s.board cell) && decide (playerLos < t)
          && decide (otherLos < t) then true
      else acc.2
    (mv, free)) ([], false)
  let mv := if isButtonActive s then res.1 ++ ["_btn|takebutton|button"] else res.1
  if !res.2 && !(isButtonActive s) then mv ++ ["pass"] else mv

/-- `IValidationResult`. -/
structure VR : Type where
  valid : Bool
  message : String
  complete : Option Int := none
  canrender : Option Bool := none
deriving DecidableEq, Repr

/-- `StigmergyGame.validateMove`.  Messages are the i18next keys.  In the
setup phase the source wraps `parseInt(m, 10)` in try/catch, but `parseInt`
never throws, so every nonempty setup input is accepted (the catch branch is
dead code and is not modelled). -/
def validateMove (g : Graph) (s : State) (m : String) : VR :=
  let m := jsNormalize m
  if s.stack.length == 1 then
    if m.length == 0 then
      { valid := true, complete := some (-1),
        message := "apgames:validation.stigmergy.INITIAL_SETUP" }
    else
      { valid := true, complete := some 0,
        message := "apgames:validation.stigmergy.INITIAL_SETUP" }
  else
  if m.length == 0 then
    { valid := true, complete := some (-1),
      message :=
        if s.stack.length == 2 then "apgames:validation.stigmergy.KOMI_CHOICE"
        else if isButtonActive s then
          "apgames:validation.stigmergy.INITIAL_INSTRUCTIONS_BUTTON"
        else "apgames:validation.stigmergy.INITIAL_INSTRUCTIONS" }
  else
  if m == "pass" then
    if (moves g s s.currplayer).contains "pass" then
      { valid := true, complete := some 1,
        message := "apgames:validation._general.VALID_MOVE" }
    else { valid := false, message := "apgames:validation.stigmergy.INVALIDPASS" }
  else
  if m == "button" then
    if isButtonActive s then
      { valid := true, complete := some 1,
        message := "apgames:validation._general.VALID_MOVE" }
    else { valid := false, message := "apgames:validation.stigmergy.INVALIDBUTTON" }
  else
  if !(g.validCell m) then
    { valid := false, message := "apgames:validation._general.INVALIDCELL" }
  else
  if mhas s.board m && (mget s.board m == some s.currplayer) then
    { valid := false,
      message :=
        if isButtonActive s then
          "apgames:validation.stigmergy.INITIAL_INSTRUCTIONS_BUTTON"
        else "apgames:validation.stigmergy.INITIAL_INSTRUCTIONS" }
  else
  if mhas s.board m && (mget s.board m == some (getOtherPlayer s.currplayer))
      && decide (getLosCount g s.board m s.currplayer < losTarget g m) then
    { valid := false, message := "apgames:validation.stigmergy.INSUFFICIENT_LOS" }
  else
  if !(mhas s.board m)
      && decide (getLosCount g s.board m (getOtherPlayer s.currplayer) ≥ losTarget g m) then
    { valid := false, message := "apgames:validation.stigmergy.OPPONENT_CONTROL" }
  else
    { valid := true, complete := some 1, canrender := some true,
      message := "apgames:validation._general.VALID_MOVE" }

/-- State-passing form of `validateMove`: the source method contains no
assignment to `this` on any path (its graph accessors only read the graph
the constructor installed), so every exit point returns the receiver
untouched. -/
def validateMoveSt (g : Graph) (s : State) (m : String) : VR × State :=
  (validateMove g s m, s)

/-- `cellOwner`: occupant if occupied, else majority line-of-sight holder. -/
def cellOwner (g : Graph) (s : State) (cell : String) : Option Nat :=
  if mhas s.board cell then mget s.board cell
  else
    let t := losTarget g cell
    if getLosCount g s.board cell 1 ≥ t then some 1
    else if getLosCount g s.board cell 2 ≥ t then some 2
    else none

/-- `updateScores`: recount influence for both players over all cells
(`scores[owner - 1]++`; the playerid type confines owners to 1 and 2). -/
def updateScores (g : Graph) (s : State) : State :=
  { s with scores := g.listCells.foldl (fun sc cell =>
      match cellOwner g s cell with
      | some 1 => (sc.1 + 1, sc.2)
      | some 2 => (sc.1, sc.2 + 1)
      | _ => sc) (0, 0) }

/-- `getPlayerScore`: influence score plus 0.5 for the button holder plus the
komi for player 2; `none` models the `NaN` produced by an unparsable komi. -/
def getPlayerScore (s : State) (p : Nat) : Option Rat :=
  let base : Rat := if p == 1 then s.scores.1 else s.scores.2
  let btn : Rat := if s.buttontaker == some p then 1 / 2 else 0
  let komiPart : Option Rat :=
    if p == 2 && !(s.komi == none) then
      match s.komi with
      | some (some k) => some (k : Rat)
      | _ => none
    else some 0
  komiPart.map (fun kq => base + btn + kq)

/-- JavaScript `>` on possibly-`NaN` numbers: false whenever either side is
`NaN`. -/
def qgt (a b : Option Rat) : Bool :=
  match a, b with
  | some x, some y => decide (y < x)
  | _, _ => false

/-- `checkEOG`: two consecutive passes end the game; the winner comparison
falls through to the shared-winner set `[1, 2]` when neither strict
comparison holds.  The source indexes `stack[stack.length - 1]` without an
emptiness check; an empty stack is modelled as a failed condition. -/
def checkEOG (s : State) : State :=
  let s1 :=
    if s.lastmove == some "pass"
        && ((s.stack.getLast?).bind (fun sn => sn.lastmove) == some "pass") then
      let p1 := getPlayerScore s 1
      let p2 := getPlayerScore s 2
      { s with gameover := true,
               winner := if qgt p1 p2 then [1] else if qgt p2 p1 then [2] else [1, 2] }
    else s
  if s1.gameover then
    { s1 with results := s1.results ++ [.eog, .winners s1.winner] }
  else s1

/-- `moveState()` (version and timestamp tags omitted). -/
def moveState (s : State) : Snap :=
  { currplayer := s.currplayer, board := s.board, lastmove := s.lastmove,
    results := s.results, scores := s.scores, buttontaker := s.buttontaker,
    komi := s.komi }

/-- The untrusted-move guard of `StigmergyGame.move` (source lines 415–423),
applied to the already-normalized input: an invalid verdict raises
VALIDATION_GENERAL; otherwise, beyond the setup ply, an input outside
`moves()` that is not the active button move raises VALIDATION_FAILSAFE. -/
def moveGuard (g : Graph) (s : State) (m : String) (pt tr : Bool) : Option String :=
  if !tr then
    if !(validateMove g s m).valid then some "VALIDATION_GENERAL"
    else if !pt && decide (s.stack.length > 1) && !((moves g s s.currplayer).contains m)
        && (!(isButtonActive s) || !(m == "button")) then some "VALIDATION_FAILSAFE"
    else none
  else none

/-- `StigmergyGame.move(m, {partial, trusted})` (`pt`/`tr` here: `partial` is
a reserved word in this development).  Terminal guard, the empty-string
early return (before normalization), normalization, the untrusted guard,
then the komi/pass/button/placement effect, player switch, `updateScores`,
`checkEOG` and the snapshot push of `saveState`. -/
def move (g : Graph) (s : State) (m : String) (pt tr : Bool) : Except String State :=
  if s.gameover then .error "MOVES_GAMEOVER" else
  if m.length == 0 then .ok s else
  let m := jsNormalize m
  match moveGuard g s m pt tr with
  | some e => .error e
  | none =>
    let s0 := { s with results := ([] : List MR) }
    let s1 :=
      if s0.stack.length == 1 then
        { s0 with komi := some (parseIntJS m),
                  results := s0.results ++ [.komi (parseIntJS m)] }
      else if m == "pass" then { s0 with results := s0.results ++ [.pass] }
      else if m == "button" then
        { s0 with buttontaker := some s0.currplayer,
                  results := s0.results ++ [.button] }
      else
        { s0 with
          results := s0.results
            ++ [if mhas s0.board m then MR.capture m else MR.place m],
          board := mset s0.board m s0.currplayer }
    let s2 := { s1 with lastmove := some m,
                        currplayer := getOtherPlayer s1.currplayer }
    let s3 := checkEOG (updateScores g s2)
    .ok { s3 with stack := s3.stack ++ [moveState s3] }

/-- `StigmergyGame.load(idx = -1)`: negative indices shifted by the stack
length, bounds check, then rehydration of every current-view field; the
stack itself is left untouched.  (The `none` branch of the lookup is
unreachable after the bounds check.) -/
def load (s : State) (i : Int) : Except String State :=
  let idx := if i < 0 then i + s.stack.length else i
  if idx < 0 ∨ (s.stack.length : Int) ≤ idx then
    .error "Could not load the requested state from the stack."
  else
    match s.stack[idx.toNat]? with
    | none => .error "Could not load the requested state from the stack."
    | some st =>
      .ok { s with
        currplayer := st.currplayer, board := st.board,
        lastmove := st.lastmove, results := st.results, scores := st.scores,
        buttontaker := st.buttontaker, komi := st.komi }

/-- A nonempty string has nonzero length. -/
theorem string_empty_of_length (m : String) (h : m.length = 0) : m = "" := by
  cases m with
  | mk l => cases l with
    | nil => rfl
    | cons a t => simp [String.length] at h

/-- Any nonempty input on a live instance for which the guard fires makes
`move` raise. -/
theorem move_error_of_guard : ∀ (g : Graph) (s : State) (m : String) (pt tr : Bool),
    s.gameover = false → m ≠ "" →
    (∃ e, moveGuard g s (jsNormalize m) pt tr = some e) →
    (move g s m pt tr).isOk = false := by
  intro g s m pt tr hg hm h
  unfold move
  rw [if_neg (by simp [hg])]
  rw [if_neg (by
    simp only [beq_iff_eq]
    intro h0
    exact hm (string_empty_of_length m h0))]
  obtain ⟨e, he⟩ := h
  simp only [he]
  rfl

/-- Past the setup ply, a normalized input outside `moves()` that is not the
active button move makes untrusted `move` raise. -/
theorem move_raises_outside_moves : ∀ (g : Graph) (s : State) (m : String),
    s.gameover = false → m ≠ "" → 2 ≤ s.stack.length →
    (moves g s s.currplayer).contains (jsNormalize m) = false →
    ¬(isButtonActive s = true ∧ jsNormalize m = "button") →
    (move g s m false false).isOk = false := by
  intro g s m hg hm hlen hmv hbtn
  apply move_error_of_guard g s m false false hg hm
  have hmv' : jsNormalize m ∉ moves g s s.currplayer := by
    simpa using hmv
  have hb : (!(isButtonActive s) || !(jsNormalize m == "button")) = true := by
    rcases Bool.eq_false_or_eq_true (isButtonActive s) with h | h
    · simp only [h, Bool.not_true, Bool.false_or, Bool.not_eq_true', beq_eq_false_iff_ne]
      intro heq
      exact hbtn ⟨h, heq⟩
    · simp [h]
  have hgt : (decide (s.stack.length > 1)) = true := by
    simp only [decide_eq_true_eq]
    omega
  by_cases hv : (validateMove g s (jsNormalize m)).valid = true
  · refine ⟨"VALIDATION_FAILSAFE", ?_⟩
    unfold moveGuard
    rw [hv]
    simp [hgt, hmv', hb]
  · refine ⟨"VALIDATION_GENERAL", ?_⟩
    unfold moveGuard
    have hv' : (validateMove g s (jsNormalize m)).valid = false :=
      Bool.eq_false_iff.mpr hv
    rw [hv']
    simp

/-- `load` at a nonnegative in-bounds index rehydrates exactly the fields of
`stack[j]` and leaves the stack unchanged. -/
theorem stig_load_nonneg : ∀ (s : State) (j : Nat), j < s.stack.length →
    load s (j : Int) = .ok { s with
      currplayer := (s.stack.getD j default).currplayer,
      board := (s.stack.getD j default).board,
      lastmove := (s.stack.getD j default).lastmove,
      results := (s.stack.getD j default).results,
      scores := (s.stack.getD j default).scores,
      buttontaker := (s.stack.getD j default).buttontaker,
      komi := (s.stack.getD j default).komi } := by
  intro s j hj
  simp only [load]
  have h0 : (if (j : Int) < 0 then (j : Int) + s.stack.length else (j : Int)) = (j : Int) :=
    if_neg (by omega)
  rw [h0]
  rw [if_neg (by omega)]
  have ht : ((j : Int)).toNat = j := rfl
  rw [ht, List.getElem?_eq_getElem hj, List.getD_eq_getElem s.stack default hj]

/-- A negative in-range index counts from the end of the stack. -/
theorem stig_load_neg : ∀ (s : State) (i : Int),
    -(s.stack.length : Int) ≤ i → i < 0 →
    load s i = load s (i + s.stack.length) := by
  intro s i h1 h2
  simp only [load]
  have e1 : (if i < 0 then i + s.stack.length else i) = i + s.stack.length := if_pos h2
  have e2 : (if i + (s.stack.length : Int) < 0 then i + s.stack.length + s.stack.length
      else i + s.stack.length) = i + s.stack.length := if_neg (by omega)
  rw [e1, e2]

/-- `load` raises on every index outside `[-stack.length, stack.length)`. -/
theorem stig_load_oob : ∀ (s : State) (i : Int),
    (i < -(s.stack.length : Int) ∨ (s.stack.length : Int) ≤ i) →
    (load s i).isOk = false := by
  intro s i h
  simp only [load]
  rw [if_pos (by split_ifs with hi <;> omega)]
  rfl

/-- A successful `load` never changes the stack. -/
theorem stig_load_keeps_stack : ∀ (s : State) (i : Int) (s' : State),
    load s i = .ok s' → s'.stack = s.stack := by
  intro s i s' h
  simp only [load] at h
  by_cases hc : ((if i < 0 then i + (s.stack.length : Int) else i) < 0
      ∨ (s.stack.length : Int) ≤ (if i < 0 then i + (s.stack.length : Int) else i))
  · rw [if_pos hc] at h
    cases h
  · rw [if_neg hc] at h
    cases hm : s.stack[(if i < 0 then i + (s.stack.length : Int) else i).toNat]? with
    | none => rw [hm] at h; cases h
    | some st =>
      rw [hm] at h
      cases h
      rfl

/-- Modelled from the spec: a three-cell all-adjacent toy topology used only
as a concrete instance for witnesses and counterexamples. -/
def gTri : Graph :=
  { listCells := ["x", "y", "z"],
    neighbours := fun c =>
      if c = "x" then ["y", "z"] else if c = "y" then ["x", "z"]
      else if c = "z" then ["x", "y"] else [],
    rays := fun c =>
      if c = "x" then [["y"], ["z"]] else if c = "y" then [["x"], ["z"]]
      else if c = "z" then [["x"], ["y"]] else [],
    validCell := fun c => c = "x" ∨ c = "y" ∨ c = "z" }

/-- The initial snapshot of a fresh game. -/
def snap0 : Snap :=
  { currplayer := 1, board := [], lastmove := none, results := [],
    scores := (0, 0), buttontaker := none, komi := none }

/-- A fresh Stigmergy instance (stack length 1: komi not yet offered). -/
def sFresh : State :=
  { currplayer := 1, board := [], lastmove := none, gameover := false,
    winner := [], stack := [snap0], results := [], scores := (0, 0),
    buttontaker := none, komi := none }

/-- The snapshot after an even komi of 4 was set. -/
def snapA : Snap :=
  { currplayer := 2, board := [], lastmove := some "4", results := [],
    scores := (0, 0), buttontaker := none, komi := some (some 4) }

/-- An instance two plies in (komi 4 offered, stack length 2). -/
def sTwo : State :=
  { currplayer := 2, board := [], lastmove := some "4", gameover := false,
    winner := [], stack := [snap0, snapA], results := [], scores := (0, 0),
    buttontaker := none, komi := some (some 4) }

/-- A terminal Stigmergy instance. -/
def sOver : State :=
  { sFresh with gameover := true }

/-- C10: on every non-terminal instance, `move` with the empty string returns
the instance unchanged — no raise, no snapshot push, no field modified (the
early return precedes every mutation). -/
theorem stig_empty_move_noop : ∀ (g : Graph) (s : State) (pt tr : Bool),
    s.gameover = false → move g s "" pt tr = .ok s := by
  intro g s pt tr h
  unfold move
  rw [if_neg (by simp [h])]
  rfl

/-- C10 witness: the empty move on the concrete fresh instance. -/
theorem stig_empty_move_noop_witness :
    move gTri sFresh "" false false = .ok sFresh :=
  stig_empty_move_noop gTri sFresh false false rfl

end Stig

/-! ## Amazons (`src/src/games/amazons.ts`)

Only the pieces the claims need: `validateMove` (claim C2) and `load`
(claim C6).  The coordinate helpers live in `GameBase` and the ray/bearing
helpers in `RectGrid`, neither of which is under `src/`; both are Modelled
from the spec (letters-plus-digits labels over the declared 10×10 bounds,
rays walking one compass direction to the boundary, bearing as the octant of
the coordinate delta).  Board values: 0 = arrow block, 1 and 2 = players. -/

namespace Amz

open JsUtil

/-- `APMoveResult` records produced by this game. -/
inductive MR : Type where
  | moveR (src : String) (dst : String)
  | blockR (cell : String)
  | eog
  | winners (players : List Nat)
  | resigned (player : Nat)
deriving DecidableEq, Repr

/-- `IMoveState`: one snapshot. -/
structure Snap : Type where
  currplayer : Nat
  board : List (String × Nat)
  lastmove : Option String
  results : List MR
deriving DecidableEq, Repr

instance : Inhabited Snap :=
  ⟨{ currplayer := 1, board := [], lastmove := none, results := [] }⟩

/-- The mutable fields of `AmazonsGame` (the blocked-node graph is rebuilt
from the board on every `load`, hence derived and not stored). -/
structure State : Type where
  currplayer : Nat
  board : List (String × Nat)
  lastmove : Option String
  gameover : Bool
  winner : List Nat
  stack : List Snap
  results : List MR
deriving DecidableEq, Repr

/-- The ten column letters of the 10×10 board. -/
def colLabels : List Char := "abcdefghij".data

/-- Modelled from the spec: `GameBase.coords2algebraic(x, y, 10)` — column
letter plus row number `10 - y` (row 10 is the top, y = 0). -/
def coords2algebraic (x y : Nat) : String :=
  String.mk [colLabels.getD x 'a'] ++ toString (10 - y)

/-- Modelled from the spec: `GameBase.algebraic2coords(cell, 10)` — fails
when the label does not match the letter-plus-digits grammar or resolves
outside the declared 10×10 bounds. -/
def algebraic2coords (cell : String) : Except String (Nat × Nat) :=
  match cell.data with
  | [] => .error "invalid cell"
  | c :: rest =>
    match colLabels.findIdx? (· = c) with
    | none => .error "invalid cell"
    | some x =>
      if rest ≠ [] ∧ rest.all Char.isDigit then
        let n := digitsToNat rest
        if 1 ≤ n ∧ n ≤ 10 then .ok (x, 10 - n) else .error "invalid cell"
      else .error "invalid cell"

/-- The eight compass directions of `RectGrid`. -/
inductive Dir : Type where
  | n | ne | e | se | s | sw | w | nw
deriving DecidableEq, Repr

/-- Coordinate delta of one step (y grows downward). -/
def dirDelta : Dir → Int × Int
  | .n => (0, -1)
  | .ne => (1, -1)
  | .e => (1, 0)
  | .se => (1, 1)
  | .s => (0, 1)
  | .sw => (-1, 1)
  | .w => (-1, 0)
  | .nw => (-1, -1)

/-- Modelled from the spec: `RectGrid(10, 10).ray(x, y, dir)` — the cells in
one direction from (excluding) the start, in proximity order, stopping at
the board edge. -/
def rgRay (x y : Nat) (d : Dir) : List (Nat × Nat) :=
  (List.range 10).filterMap (fun k =>
    let dx := (dirDelta d).1
    let dy := (dirDelta d).2
    let nx : Int := (x : Int) + dx * (k + 1)
    let ny : Int := (y : Int) + dy * (k + 1)
    if 0 ≤ nx ∧ nx ≤ 9 ∧ 0 ≤ ny ∧ ny ≤ 9 then some (nx.toNat, ny.toNat) else none)

/-- Modelled from the spec: `RectGrid.bearing` — the octant of the delta
between two distinct points, `none` for a point and itself. -/
def bearing (x1 y1 x2 y2 : Nat) : Option Dir :=
  if x1 = x2 ∧ y1 = y2 then none
  else if x1 = x2 then (if y2 < y1 then some .n else some .s)
  else if y1 = y2 then (if x1 < x2 then some .e else some .w)
  else if x1 < x2 then (if y2 < y1 then some .ne else some .se)
  else (if y2 < y1 then some .nw else some .sw)

/-- `IValidationResult` (same shape as Stigmergy). -/
structure VR : Type where
  valid : Bool
  message : String
  complete : Option Int := none
  canrender : Option Bool := none
deriving DecidableEq, Repr

/-- The coordinates of a label already validated by the coordinate loop; the
default is unreachable on those paths. -/
def coordsD (cell : String) : Nat × Nat :=
  match algebraic2coords cell with
  | .ok p => p
  | .error _ => (0, 0)

/-- `AmazonsGame.validateMove`: empty-string rejection, coordinate
validation of each present segment of `from-to/block`, source-piece checks,
queen-path check (straight line, unobstructed), then arrow-path check
(straight line, unobstructed except the vacated source square).  Messages
are the i18next keys. -/
def validateMove (s : State) (m : String) : VR :=
  if m.length == 0 then
    { valid := false, message := "apgames:validation._general.EMPTYSTRING" }
  else
  let parts := m.split (fun c => c = '-' ∨ c = '/')
  let fromC := parts.getD 0 ""
  let toC := parts[1]?
  let blockC := parts[2]?
  if !(([some fromC, toC, blockC].all (fun oc =>
        match oc with
        | some c => (algebraic2coords c).isOk
        | none => true))) then
    { valid := false, message := "apgames:validation._general.INVALIDCELL" }
  else
  if !(mhas s.board fromC) then
    { valid := false, message := "apgames:validation._general.NONEXISTENT" }
  else
  if !(mget s.board fromC == some s.currplayer) then
    { valid := false, message := "apgames:validation._general.UNCONTROLLED" }
  else
  match toC with
  | none =>
    { valid := true, complete := some (-1), canrender := some false,
      message := "apgames:validation.amazons.POTENTIAL_MOVE" }
  | some t =>
    let pF := coordsD fromC
    let pT := coordsD t
    if mhas s.board t then
      { valid := false, message := "apgames:validation._general.OCCUPIED" }
    else
    let dir := (bearing pF.1 pF.2 pT.1 pT.2).getD Dir.n
    let ray := (rgRay pF.1 pF.2 dir).map (fun p => coords2algebraic p.1 p.2)
    if !(ray.contains t) then
      { valid := false, message := "apgames:validation.amazons.STRAIGHTLINE" }
    else
    match (ray.takeWhile (fun c => !(c == t))).find? (fun c => mhas s.board c) with
    | some _ => { valid := false, message := "apgames:validation._general.OBSTRUCTED" }
    | none =>
      match blockC with
      | none =>
        { valid := true, complete := some (-1), canrender := some true,
          message := "apgames:validation.amazons.POTENTIAL_BLOCK" }
      | some b =>
        let pB := coordsD b
        if mhas s.board b && !(b == fromC) then
          { valid := false, message := "apgames:validation._general.OCCUPIED" }
        else
        let dir2 := (bearing pT.1 pT.2 pB.1 pB.2).getD Dir.n
        let ray2 := (rgRay pT.1 pT.2 dir2).map (fun p => coords2algebraic p.1 p.2)
        if !(ray2.contains b) then
          { valid := false, message := "apgames:validation.amazons.STRAIGHTLINE" }
        else
        match (ray2.takeWhile (fun c => !(c == b))).find?
            (fun c => mhas s.board c && !(c == fromC)) with
        | some _ =>
          { valid := false, message := "apgames:validation._general.OBSTRUCTED" }
        | none =>
          { valid := true, complete := some 1,
            message := "apgames:validation._general.VALID_MOVE" }

/-- State-passing form of `validateMove`: the source method contains no
assignment to `this` on any path, so every exit point returns the receiver
untouched. -/
def validateMoveSt (s : State) (m : String) : VR × State :=
  (validateMove s m, s)

/-- `AmazonsGame.load(idx = -1)`: negative indices shifted by the stack
length, bounds check (plus the source redundant `undefined` check, the
`none` branch), then rehydration of results, current player, board and
last move; the graph is rebuilt from the board and the stack is untouched. -/
def load (s : State) (i : Int) : Except String State :=
  let idx := if i < 0 then i + s.stack.length else i
  if idx < 0 ∨ (s.stack.length : Int) ≤ idx then
    .error "Could not load the requested state from the stack."
  else
    match s.stack[idx.toNat]? with
    | none => .error "Could not load state index"
    | some st =>
      .ok { s with
        results := st.results, currplayer := st.currplayer,
        board := st.board, lastmove := st.lastmove }

/-- `load` at a nonnegative in-bounds index rehydrates exactly the fields of
`stack[j]` and leaves the stack unchanged. -/
theorem amz_load_nonneg : ∀ (s : State) (j : Nat), j < s.stack.length →
    load s (j : Int) = .ok { s with
      results := (s.stack.getD j default).results,
      currplayer := (s.stack.getD j default).currplayer,
      board := (s.stack.getD j default).board,
      lastmove := (s.stack.getD j default).lastmove } := by
  intro s j hj
  simp only [load]
  have h0 : (if (j : Int) < 0 then (j : Int) + s.stack.length else (j : Int)) = (j : Int) :=
    if_neg (by omega)
  rw [h0]
  rw [if_neg (by omega)]
  have ht : ((j : Int)).toNat = j := rfl
  rw [ht, List.getElem?_eq_getElem hj, List.getD_eq_getElem s.stack default hj]

/-- A negative in-range index counts from the end of the stack. -/
theorem amz_load_neg : ∀ (s : State) (i : Int),
    -(s.stack.length : Int) ≤ i → i < 0 →
    load s i = load s (i + s.stack.length) := by
  intro s i h1 h2
  simp only [load]
  have e1 : (if i < 0 then i + s.stack.length else i) = i + s.stack.length := if_pos h2
  have e2 : (if i + (s.stack.length : Int) < 0 then i + s.stack.length + s.stack.length
      else i + s.stack.length) = i + s.stack.length := if_neg (by omega)
  rw [e1, e2]

/-- `load` raises on every index outside `[-stack.length, stack.length)`. -/
theorem amz_load_oob : ∀ (s : State) (i : Int),
    (i < -(s.stack.length : Int) ∨ (s.stack.length : Int) ≤ i) →
    (load s i).isOk = false := by
  intro s i h
  simp only [load]
  rw [if_pos (by split_ifs with hi <;> omega)]
  rfl

/-- A successful `load` never changes the stack. -/
theorem amz_load_keeps_stack : ∀ (s : State) (i : Int) (s' : State),
    load s i = .ok s' → s'.stack = s.stack := by
  intro s i s' h
  simp only [load] at h
  by_cases hc : ((if i < 0 then i + (s.stack.length : Int) else i) < 0
      ∨ (s.stack.length : Int) ≤ (if i < 0 then i + (s.stack.length : Int) else i))
  · rw [if_pos hc] at h
    cases h
  · rw [if_neg hc] at h
    cases hm : s.stack[(if i < 0 then i + (s.stack.length : Int) else i).toNat]? with
    | none => rw [hm] at h; cases h
    | some st =>
      rw [hm] at h
      cases h
      rfl

/-- The initial Amazons snapshot (`amazons.ts` lines 120–134). -/
def snap0 : Snap :=
  { currplayer := 1,
    board := [("d10", 2), ("g10", 2), ("a7", 2), ("j7", 2),
              ("a4", 1), ("j4", 1), ("d1", 1), ("g1", 1)],
    lastmove := none, results := [] }

/-- A fresh Amazons instance. -/
def sFresh : State :=
  { currplayer := 1, board := snap0.board, lastmove := none, gameover := false,
    winner := [], stack := [snap0], results := [] }

end Amz

/-! ## Claim theorems spanning several games -/

/-- A three-cell Cephalopod topology with one cell adjacent to the other
two, used to exhibit capture-order permutations. -/
def cephG3 : Ceph.Graph :=
  { cells := ["a", "b", "c"],
    neighbours := fun c => if c = "a" then ["b", "c"] else ["a"] }

/-- A Cephalopod position where capturing both neighbours of `a` is legal. -/
def cephCap : Ceph.State :=
  { currplayer := 1, board := [("b", 2, 1), ("c", 2, 1)], lastmove := none,
    gameover := false, winner := [], stack := [], results := [] }

/-- A terminal Cephalopod instance. -/
def cephOver : Ceph.State :=
  { cephCap with gameover := true }

/-- C2: `validateMove` returns a verdict with the instance unchanged, for
any input including malformed strings: in both embedded games the source
method performs no assignment to `this` on any path (the graph accessors it
calls only read the topology the constructor installed), so its
state-passing form returns the receiver untouched. -/
theorem validate_purity :
    (∀ (g : Stig.Graph) (s : Stig.State) (m : String),
      (Stig.validateMoveSt g s m).2 = s)
    ∧ (∀ (s : Amz.State) (m : String), (Amz.validateMoveSt s m).2 = s) :=
  ⟨fun _ _ _ => rfl, fun _ _ => rfl⟩

/-- C1 counterexample: on a fresh Stigmergy instance the legal-move
enumeration `moves()` is empty, yet the untrusted input "5" (a komi offer)
is accepted by `move` and pushes a snapshot, growing the stack from 1 to 2 —
so an input absent from `moves()` need not raise. -/
theorem move_rejection_counterexample :
    Stig.moves Stig.gTri Stig.sFresh Stig.sFresh.currplayer = []
    ∧ (Stig.move Stig.gTri Stig.sFresh "5" false false).map
        (fun st => st.stack.length) = .ok 2 := by
  constructor
  · rfl
  · decide

/-- C1 amended: a terminal instance always raises (both games).  In
Stigmergy, when the instance is live, the raw input nonempty, the stack past
the setup ply (length ≥ 2), the normalized input absent from `moves()`, and
the input is not the `button` move while the button is active,
`move(m, trusted := false, partial := false)` raises — and every raise in
the source precedes the first mutation, so the stack and all fields are left
unchanged.  In Cephalopod, `move` raises whenever the normalized input is
absent from the permissive enumeration `moves(player, permissive := true)`,
a superset of `moves()` holding every ordering of each capture set. -/
theorem move_rejection_corrected :
    (∀ (g : Stig.Graph) (s : Stig.State) (m : String) (pt tr : Bool),
      s.gameover = true → Stig.move g s m pt tr = .error "MOVES_GAMEOVER")
    ∧ (∀ (g : Stig.Graph) (s : Stig.State) (m : String),
      s.gameover = false → m ≠ "" → 2 ≤ s.stack.length →
      (Stig.moves g s s.currplayer).contains (JsUtil.jsNormalize m) = false →
      ¬(Stig.isButtonActive s = true ∧ JsUtil.jsNormalize m = "button") →
      (Stig.move g s m false false).isOk = false)
    ∧ (∀ (g : Ceph.Graph) (s : Ceph.State) (m : String),
      s.gameover = true → Ceph.move g s m = .error "MOVES_GAMEOVER")
    ∧ (∀ (g : Ceph.Graph) (s : Ceph.State) (m : String),
      s.gameover = false →
      (Ceph.moves g s s.currplayer true).contains (JsUtil.jsNormalize m) = false →
      Ceph.move g s m = .error "MOVES_INVALID") := by
  refine ⟨?_, Stig.move_raises_outside_moves, ?_, ?_⟩
  · intro g s m pt tr h
    unfold Stig.move
    rw [if_pos h]
  · intro g s m h
    unfold Ceph.move
    rw [if_pos h]
  · intro g s m hg hmv
    have hmv' : JsUtil.jsNormalize m ∉ Ceph.moves g s s.currplayer true := by
      simpa using hmv
    simp only [Ceph.move]
    rw [if_neg (by simp [hg])]
    rw [if_pos (by simp [hmv'])]

/-- C1 witness: all four clauses exercised — a terminal Stigmergy instance,
a live Stigmergy instance with an off-enumeration input, a terminal
Cephalopod instance, and a live Cephalopod instance with an off-enumeration
input. -/
theorem move_rejection_corrected_witness :
    Stig.move Stig.gTri Stig.sOver "x" false false = .error "MOVES_GAMEOVER"
    ∧ (Stig.move Stig.gTri Stig.sTwo "zz" false false).isOk = false
    ∧ Ceph.move Ceph.g2 cephOver "p" = .error "MOVES_GAMEOVER"
    ∧ Ceph.move cephG3 cephCap "zz" = .error "MOVES_INVALID" :=
  ⟨move_rejection_corrected.1 Stig.gTri Stig.sOver "x" false false rfl,
   move_rejection_corrected.2.1 Stig.gTri Stig.sTwo "zz" rfl (by decide)
     (by decide) (by decide) (by decide),
   move_rejection_corrected.2.2.1 Ceph.g2 cephOver "p" rfl,
   move_rejection_corrected.2.2.2 cephG3 cephCap "zz" rfl (by decide)⟩

/-- C6: in both embedded games, `load i` with `-n ≤ i < n` (n the stack
length) rehydrates the current-view fields from `stack[i]` (negative `i`
counting from the end) while leaving the stack unchanged, and raises on any
index outside that range. -/
theorem load_contract :
    (∀ (s : Stig.State) (j : Nat), j < s.stack.length →
      Stig.load s (j : Int) = .ok { s with
        currplayer := (s.stack.getD j default).currplayer,
        board := (s.stack.getD j default).board,
        lastmove := (s.stack.getD j default).lastmove,
        results := (s.stack.getD j default).results,
        scores := (s.stack.getD j default).scores,
        buttontaker := (s.stack.getD j default).buttontaker,
        komi := (s.stack.getD j default).komi })
    ∧ (∀ (s : Stig.State) (i : Int), -(s.stack.length : Int) ≤ i → i < 0 →
      Stig.load s i = Stig.load s (i + s.stack.length))
    ∧ (∀ (s : Stig.State) (i : Int),
      (i < -(s.stack.length : Int) ∨ (s.stack.length : Int) ≤ i) →
      (Stig.load s i).isOk = false)
    ∧ (∀ (s : Stig.State) (i : Int) (s' : Stig.State),
      Stig.load s i = .ok s' → s'.stack = s.stack)
    ∧ (∀ (s : Amz.State) (j : Nat), j < s.stack.length →
      Amz.load s (j : Int) = .ok { s with
        results := (s.stack.getD j default).results,
        currplayer := (s.stack.getD j default).currplayer,
        board := (s.stack.getD j default).board,
        lastmove := (s.stack.getD j default).lastmove })
    ∧ (∀ (s : Amz.State) (i : Int), -(s.stack.length : Int) ≤ i → i < 0 →
      Amz.load s i = Amz.load s (i + s.stack.length))
    ∧ (∀ (s : Amz.State) (i : Int),
      (i < -(s.stack.length : Int) ∨ (s.stack.length : Int) ≤ i) →
      (Amz.load s i).isOk = false)
    ∧ (∀ (s : Amz.State) (i : Int) (s' : Amz.State),
      Amz.load s i = .ok s' → s'.stack = s.stack) :=
  ⟨Stig.stig_load_nonneg, Stig.stig_load_neg, Stig.stig_load_oob,
   Stig.stig_load_keeps_stack, Amz.amz_load_nonneg, Amz.amz_load_neg,
   Amz.amz_load_oob, Amz.amz_load_keeps_stack⟩

/-- C6 witness: `load (-1)` on a two-snapshot Stigmergy instance reproduces
the most recent snapshot (here equal to the live view), `load 0` on a fresh
Amazons instance reproduces the initial snapshot, and out-of-range indices
raise in both games. -/
theorem load_contract_witness :
    Stig.load Stig.sTwo (-1) = .ok Stig.sTwo
    ∧ (Stig.load Stig.sTwo 5).isOk = false
    ∧ Amz.load Amz.sFresh 0 = .ok Amz.sFresh
    ∧ (Amz.load Amz.sFresh (-2)).isOk = false := by
  refine ⟨?_, load_contract.2.2.1 Stig.sTwo 5 (by decide), ?_,
    load_contract.2.2.2.2.2.2.1 Amz.sFresh (-2) (by decide)⟩
  · have h := load_contract.2.1 Stig.sTwo (-1) (by decide) (by decide)
    rw [h]
    have e : (-1 : Int) + (Stig.sTwo.stack.length : Int) = ((1 : Nat) : Int) := by decide
    rw [e]
    have h2 := load_contract.1 Stig.sTwo 1 (by decide)
    rw [h2]
    decide
  · have h3 := load_contract.2.2.2.2.1 Amz.sFresh 0 (by decide)
    have e : (0 : Int) = ((0 : Nat) : Int) := rfl
    rw [e, h3]
    decide
